import Mathlib

/-!
A shallow embedding of the window-arrangement core of `src/howm.c`.

The embedding has two layers:

* a list-level model (`WMState`): each workspace's intrusive singly-linked
  client list is represented as a `List Client`; a client's pointer identity
  is modelled by an allocation id (`Client.id`) that is handed out by a
  counter and never reused, mirroring `calloc` returning fresh addresses.
  `current` / `prev_foc` are non-owning references, modelled as `Option Nat`
  holding the id.  Operations that hit undefined behaviour in the C source
  (null-pointer dereference, division by zero) return `none`.

* a pointer-level model (`HState`): the raw `next`-field heap, a partial
  successor function `Nat → Option Nat`, used to settle the claims about the
  list shape itself (acyclicity, null-terminated tail), which the list-level
  model would trivialise.

The configuration header `config.h` is included by `src/howm.c` but is not
part of `src/`.  Modelled from the spec: the workspace count `WORKSPACES`
(spec: a fixed count N) is a parameter `W` of every operation that needs
it, and the layout-gap constants `BORDER_PX` and `GAP` (spec: border width
and gap size in pixels) are parameters `B` and `G` of the geometry
functions.  Purely external boundary calls (xcb requests, printing) have no
effect on core state and are dropped, with one exception: the indexes used
on the stacking array `windows[]` in `update_focused_client` are computed
explicitly (`ufc_write_loop`, `ufc_read_indexes`) because a claim is about
them.
-/

/-- The layout enumeration `enum {ZOOM, GRID, HSTACK, VSTACK, FIBONACCI, END_LAYOUT}`. -/
def ZOOM : Nat := 0

def GRID : Nat := 1

def HSTACK : Nat := 2

def VSTACK : Nat := 3

def FIBONACCI : Nat := 4

def END_LAYOUT : Nat := 5

/-- `struct Client` from howm.c.  The `next` link is represented by the
position in a `List Client` (list-level model) or by `HState.nextf`
(pointer-level model).  `id` models the pointer identity of the allocation;
ids are handed out by `WMState.next_id` and never reused. -/
structure Client where
  id : Nat
  x : Int
  y : Int
  w : Int
  h : Int
  is_fullscreen : Bool
  is_floating : Bool
  is_transient : Bool
  win : Nat
deriving DecidableEq

/-- The macro `FFT(client)`; note that in the C source its body mentions the
variable `c`, not its argument, so at every use site it tests whatever `c`
denotes there.  This definition is the intended predicate; the one use site
where the capture changes the meaning (`FFT(current)` in
`update_focused_client`, where `c` is `head` at that point) is modelled
explicitly at that site. -/
def FFT (c : Client) : Bool := c.is_transient || c.is_floating || c.is_fullscreen

/-- The walk inside `prev_client`:
`for (p = head; p->next && p->next != c; p = p->next); return p;`. -/
def prev_walk (p : Client) : List Client → Nat → Client
  | [], _ => p
  | q :: qs, cid => if q.id = cid then p else prev_walk q qs cid

/-- `prev_client(c)`.  Returns `none` when `c` is null or when
`!head->next`.  For an empty list the C code dereferences `head->next` on a
null `head` (undefined behaviour); all call sites in the source exclude that
case, and `none` is returned here. -/
def prev_client (l : List Client) (c : Option Nat) : Option Client :=
  match c, l with
  | none, _ => none
  | some _, [] => none
  | some _, [_] => none
  | some cid, p :: q :: qs => some (prev_walk p (q :: qs) cid)

/-- `get_non_tff_count`: counts clients from the head while none are FFT and
stops at the first FFT client. -/
def get_non_tff_count : List Client → Nat
  | [] => 0
  | c :: cs => if FFT c then 0 else get_non_tff_count cs + 1

/-- `client_from_window`, list structure part.  In the source,
`t = prev_client(head)` is the tail node (or `NULL` for lists shorter than
two), and each of the three branches (`head = c`, `t->next = c`,
`head->next = c`) links the fresh client after the last node, so the net
effect on the list is an append at the tail.  (This is proved against the
pointer-level translation: see `client_from_window_h`.) -/
def client_from_window (l : List Client) (c : Client) : List Client :=
  match l with
  | [] => [c]
  | [h] => [h, c]
  | h :: rest => h :: rest ++ [c]

/-- `typedef struct { int layout; Client *head, *prev_foc, *current; } Workspace;` -/
structure Workspace where
  layout : Nat
  head : List Client
  prev_foc : Option Nat
  current : Option Nat
deriving DecidableEq

/-- Pointwise update of a function-valued array (used for the
`workspaces[]` slots and for the pointer heap). -/
def fupd {α : Type} (f : Nat → α) (i : Nat) (v : α) : Nat → α :=
  fun k => if k = i then v else f k

/-- The global mutable state of howm.c: the `workspaces[]` array from
config.h together with the live globals `head`, `prev_foc`, `current`,
`current_workspace`, `prev_workspace`, `layout`, `prev_layout`.  `next_id`
models the allocator (fresh, never-reused client ids). -/
structure WMState where
  workspaces : Nat → Workspace
  head : List Client
  prev_foc : Option Nat
  current : Option Nat
  current_workspace : Nat
  prev_workspace : Nat
  layout : Nat
  prev_layout : Nat
  next_id : Nat

/-- The live global 4-tuple that `save_workspace` stores into a slot. -/
def liveWS (s : WMState) : Workspace :=
  ⟨s.layout, s.head, s.prev_foc, s.current⟩

/-- `save_workspace(i)`: guard `i < 0 || i >= WORKSPACES`, then copy the
live globals into slot `i`. -/
def save_workspace (W : Nat) (s : WMState) (i : Nat) : WMState :=
  if i < W then { s with workspaces := fupd s.workspaces i (liveWS s) } else s

/-- `select_workspace(i)`: save the active slot, then load slot `i` into
the live globals and make `i` active.  The load `workspaces[i]` is not
bounds-checked in the source; every call site passes an in-range index. -/
def select_workspace (W : Nat) (s : WMState) (i : Nat) : WMState :=
  let s1 := save_workspace W s s.current_workspace
  let w := s1.workspaces i
  { s1 with
    layout := w.layout
    current := w.current
    head := w.head
    prev_foc := w.prev_foc
    current_workspace := i }

/-- The `for (w = 0; w < WORKSPACES; w++) select_workspace(w), ...` loop of
`workspace_info` (the client counting and printing are boundary output). -/
def ws_info_loop (W : Nat) : WMState → List Nat → WMState
  | s, [] => s
  | s, w :: ws => ws_info_loop W (select_workspace W s w) ws

/-- `workspace_info`: iterate `select_workspace` over every slot, then
restore the originally active workspace unless the loop already ended
there (`if (cw != w - 1) select_workspace(cw);` with `w = WORKSPACES`). -/
def workspace_info (W : Nat) (s : WMState) : WMState :=
  let cw := s.current_workspace
  let t := ws_info_loop W s (List.range W)
  if cw ≠ W - 1 then select_workspace W t cw else t

/-- The dispatch index of `arrange_windows`:
`layout_handler[head->next ? layout : ZOOM]()` (only evaluated when `head`
is non-null). -/
def arrange_dispatch (lay : Nat) (l : List Client) : Nat :=
  if 2 ≤ l.length then lay else ZOOM

/-- `stack()` divides `span / n` with `n = get_non_tff_count()`; when the
dispatched layout is HSTACK or VSTACK and that count is zero the division
is undefined behaviour.  This predicate says the crash does not happen. -/
def stack_safe (lay : Nat) (l : List Client) : Prop :=
  ¬((arrange_dispatch lay l = HSTACK ∨ arrange_dispatch lay l = VSTACK) ∧
    get_non_tff_count l = 0)

instance (lay : Nat) (l : List Client) : Decidable (stack_safe lay l) := by
  unfold stack_safe; infer_instance

/-- `arrange_windows`: return early on an empty list, otherwise run the
dispatched layout (geometry-only boundary output, except that `stack` can
divide by zero, modelled as `none`) and then `workspace_info`. -/
def arrange_windows (W : Nat) (s : WMState) : Option WMState :=
  if s.head = [] then some s
  else if (arrange_dispatch s.layout s.head = HSTACK ∨
           arrange_dispatch s.layout s.head = VSTACK) ∧
          get_non_tff_count s.head = 0 then none
  else some (workspace_info W s)

/-- The focus resolution at the top of `update_focused_client` (only
reached when `head` is non-null).  Returns the new `(current, prev_foc)`
pair. -/
def resolve_focus (l : List Client) (cur pf c : Option Nat) :
    Option Nat × Option Nat :=
  if c = pf then
    let cur' : Option Nat :=
      match pf with
      | some p => some p
      | none => l.head?.map fun x => x.id
    (cur', (prev_client l cur').map fun x => x.id)
  else if c ≠ cur then (c, cur)
  else (cur, pf)

/-- `update_focused_client(c)`, core-state effect.  On an empty list it
clears both focus references (and deletes the active-window property, a
boundary call).  Otherwise it resolves the focus pair, dereferences
`current` (undefined behaviour — `none` — if the resolved `current` is
null), emits border/stacking/property commands (boundary output; the
`windows[]` indexes are modelled separately by `ufc_write_loop` and
`ufc_read_indexes`), and re-runs `arrange_windows`. -/
def update_focused_client (W : Nat) (s : WMState) (c : Option Nat) :
    Option WMState :=
  if s.head = [] then some { s with prev_foc := none, current := none }
  else
    let r := resolve_focus s.head s.current s.prev_foc c
    match r.1 with
    | none => none
    | some _ => arrange_windows W { s with current := r.1, prev_foc := r.2 }

/-- `change_workspace(arg)` (`switch_to`): guard, record the previous
index, select the destination (mapping its windows), select the source
(unmapping its windows), select the destination again, then
`arrange_windows`, `update_focused_client(current)`, `workspace_info`. -/
def change_workspace (W : Nat) (s : WMState) (i : Int) : Option WMState :=
  if (W : Int) ≤ i ∨ i < 0 ∨ i = (s.current_workspace : Int) then some s
  else
    let s1 := { s with prev_workspace := s.current_workspace }
    let s2 := select_workspace W s1 i.toNat
    let s3 := select_workspace W s2 s2.prev_workspace
    let s4 := select_workspace W s3 i.toNat
    match arrange_windows W s4 with
    | none => none
    | some s5 =>
      match update_focused_client W s5 s5.current with
      | none => none
      | some s6 => some (workspace_info W s6)

/-- `change_layout(arg)`: guard
`arg->i == layout || arg->i >= END_LAYOUT || arg->i < 0`, then set
`prev_layout`/`layout` and re-arrange, refocus, report. -/
def change_layout (W : Nat) (s : WMState) (i : Int) : Option WMState :=
  if i = (s.layout : Int) ∨ (END_LAYOUT : Int) ≤ i ∨ i < 0 then some s
  else
    let s1 := { s with prev_layout := s.layout, layout := i.toNat }
    match arrange_windows W s1 with
    | none => none
    | some s2 =>
      match update_focused_client W s2 s2.current with
      | none => none
      | some s3 => some (workspace_info W s3)

/-- The outer search loop of `win_to_client`, recursing over the workspace
index `w` (fuel is `W - w` at entry, so `W` from the initial call).  The
inner loop walks the selected workspace's list until the window handle
matches; exiting early leaves `w` already incremented. -/
def wtc_go (W : Nat) (win : Nat) : Nat → Nat → WMState → WMState × Option Client × Nat
  | 0, w, s => (s, none, w)
  | fuel + 1, w, s =>
    if w < W then
      let s' := select_workspace W s w
      match s'.head.find? (fun c => c.win == win) with
      | some c => (s', some c, w + 1)
      | none => wtc_go W win fuel (w + 1) s'
    else (s, none, w)

/-- `win_to_client(win)`: search every workspace (selecting each in turn),
then `if (cw != w - 1) select_workspace(cw);`.  Returns the post-search
state and the found client. -/
def win_to_client (W : Nat) (s : WMState) (win : Nat) : WMState × Option Client :=
  let cw := s.current_workspace
  let r := wtc_go W win W 0 s
  (if cw ≠ r.2.2 - 1 then select_workspace W r.1 cw else r.1, r.2.1)

/-- The `temp` walk of `remove_client`: `temp` starts at `&head` and is
advanced through the `next` links until `*temp == c`.  Returns the list
with that node unlinked (`*temp = c->next`), or `none` when the walk runs
off the end — the C code then advances `temp` through a null pointer and
dereferences it (undefined behaviour). -/
def remove_from_list : List Client → Nat → Option (List Client)
  | [], _ => none
  | c :: cs, cid =>
    if c.id = cid then some cs
    else (remove_from_list cs cid).map fun cs' => c :: cs'

/-- `remove_client(c)`.  The outer loop is
`for (found = false; w < WORKSPACES && !found; w++)` whose body starts with
`select_workspace(cw)` — the saved current index, not the loop index `w` —
so every pass searches the same (active) workspace's list; one pass decides
the outcome, and a client found in the first pass leaves `w = 1`.  A client
on any other workspace is never found and `*temp` is dereferenced through a
null `temp` (`none`). -/
def remove_client (W : Nat) (s : WMState) (cid : Nat) : Option WMState :=
  let cw := s.current_workspace
  let s1 := select_workspace W s cw
  match remove_from_list s1.head cid with
  | none => none
  | some head' =>
    let s2 := { s1 with head := head' }
    -- if (c == prev_foc) prev_foc = prev_client(c); — after the unlink, so
    -- the walk runs over the shortened list; on a now-empty list
    -- prev_client reads head->next through a null head (undefined).
    match (if s2.prev_foc = some cid then
             if head' = [] then none
             else some { s2 with
                          prev_foc := (prev_client head' (some cid)).map fun x => x.id }
           else some s2) with
    | none => none
    | some s3 =>
      -- if (c == head) head = NULL; — compared after the unlink, when head
      -- is already c->next; it can only fire if c->next were c itself.
      let s4 := if s3.head.head?.map (fun x => x.id) = some cid
                then { s3 with head := [] } else s3
      -- if (c == current || !head->next) update_focused_client(prev_foc);
      -- `head->next` dereferences a null head when the list became empty
      -- and c was not current.
      match (if s4.current = some cid then
               update_focused_client W s4 s4.prev_foc
             else if s4.head = [] then none
             else if s4.head.length = 1 then
               update_focused_client W s4 s4.prev_foc
             else some s4) with
      | none => none
      | some s5 =>
        -- free(c): ids are never reused, nothing further to model.
        -- if (cw == w - 1) arrange_windows(); else select_workspace(cw);
        match (if cw = 0 then arrange_windows W s5
               else some (select_workspace W s5 cw)) with
        | none => none
        | some s6 => some (workspace_info W s6)

/-- `destroy_event`: look the window up across all workspaces and remove
the client if one matches; no-op otherwise. -/
def destroy_event (W : Nat) (s : WMState) (win : Nat) : Option WMState :=
  match win_to_client W s win with
  | (s', some c) => remove_client W s' c.id
  | (s', none) => some s'

/-- `map_request_event`: ignore override-redirect or already-tracked
windows; otherwise allocate a client (appended at the tail of the active
list), mark it floating and transient iff the window is transient, then
`arrange_windows`, map (boundary), `update_focused_client(c)`. -/
def map_request_event (W : Nat) (s : WMState) (win : Nat)
    (transient : Bool) (override_redirect : Bool) : Option WMState :=
  if override_redirect then some s
  else
    match win_to_client W s win with
    | (s', some _) => some s'
    | (s', none) =>
      let c : Client :=
        { id := s'.next_id, x := 0, y := 0, w := 0, h := 0,
          is_fullscreen := false, is_floating := transient,
          is_transient := transient, win := win }
      let s1 := { s' with head := client_from_window s'.head c,
                          next_id := s'.next_id + 1 }
      match arrange_windows W s1 with
      | none => none
      | some s2 => update_focused_client W s2 (some c.id)

/-- A geometry command emitted through `xcb_configure_window`. -/
structure Geom where
  x : Int
  y : Int
  w : Int
  h : Int
deriving DecidableEq

/-- `xcb_move_resize(con, win, draw_gap, x, y, w, h)`: apply the gap inset
when `draw_gap` is set. -/
def xcb_move_resize_model (draw_gap : Bool) (G x y w h : Int) : Geom :=
  if draw_gap then ⟨x + G, y + G, w - 2 * G, h - 2 * G⟩ else ⟨x, y, w, h⟩

/-- The tail loop of `stack()`:
`for (c = head->next, i = 0; i < n - 1; c = c->next, i++)`, placed along
the major axis at cumulative offset `pos`, which advances by
`BORDER_PX + client_span` after each client. -/
def stack_rest (B G sw sh : Int) (vert : Bool) (client_span : Int) :
    List Client → Int → List (Nat × Geom)
  | [], _ => []
  | c :: cs, pos =>
    if vert then
      (c.win, xcb_move_resize_model false G G pos (sw - 2 * (B + G)) (client_span - G - B)) ::
        stack_rest B G sw sh vert client_span cs (pos + B + client_span)
    else
      (c.win, xcb_move_resize_model false G pos G (client_span - G - B) (sh - 2 * (B + G))) ::
        stack_rest B G sw sh vert client_span cs (pos + B + client_span)

/-- `stack()`: the geometry commands it emits, in order.  The head call
passes its arguments against the `xcb_move_resize` signature
`(con, win, draw_gap, x, y, w, h)` as written in the source:
for VSTACK the actual arguments are `(BORDER_PX, client_y, true, …)`, so
`draw_gap` receives `BORDER_PX` (converted to bool), `x` receives
`client_y` and `y` receives the integer value of `true`, i.e. `1`; for
HSTACK they are `(client_x, BORDER_PX, true, …)`, so `draw_gap` receives
`client_x = 0` (false) and `y` receives `1` likewise.  `span / n` with
`n = get_non_tff_count() = 0` is a division by zero (`none`). -/
def stack (B G sw sh : Int) (vert : Bool) (l : List Client) :
    Option (List (Nat × Geom)) :=
  match l with
  | [] => none
  | hd :: tl =>
    let span : Int := if vert then sh else sw
    let n : Int := (get_non_tff_count (hd :: tl) : Int)
    if n = 0 then none
    else
      let client_span := span / n - 2 * B
      let headg :=
        if vert then
          xcb_move_resize_model (decide (B ≠ 0)) G 0 1 (sw - 2 * B) client_span
        else
          xcb_move_resize_model false G B 1 client_span (sh - 2 * B)
      if tl = [] then some [(hd.win, headg)]
      else
        some ((hd.win, headg) ::
          stack_rest B G sw sh vert client_span (tl.take (n - 1).toNat)
            (B + span / n))

/-- Pre-decrement of an `unsigned int` counter (wraps at zero). -/
def u32dec (x : Nat) : Nat := (x + 2 ^ 32 - 1) % 2 ^ 32

/-- The banding loop of `update_focused_client` that fills the stacking
array `windows[all]`: for every client other than `current`, the index
written is `--fullscreen`, `--float_trans` or `--all` depending on the
client's flags.  Returns the list of indexes written and the final value of
the `all` counter.  The counters are `unsigned int`s. -/
def ufc_write_loop (cur : Client) :
    List Client → Nat → Nat → Nat → List Nat × Nat
  | [], _, _, al => ([], al)
  | c :: cs, fs, ft, al =>
    if c.id = cur.id then ufc_write_loop cur cs fs ft al
    else if c.is_fullscreen then
      let r := ufc_write_loop cur cs (u32dec fs) ft al
      (u32dec fs :: r.1, r.2)
    else if FFT c then
      let r := ufc_write_loop cur cs fs (u32dec ft) al
      (u32dec ft :: r.1, r.2)
    else
      let r := ufc_write_loop cur cs fs ft (u32dec al)
      (u32dec al :: r.1, r.2)

/-- All indexes written into `windows[]`: the slot for `current`
(`(current->is_floating || current->is_transient) ? 0 : fullscreen`)
followed by the banding loop.  The counting loop sets `all` to the list
length, `fullscreen` to the number of FFT clients and `float_trans` to the
number of non-fullscreen clients (the second `if` in that loop body is not
nested under the first despite the indentation).  Before the banding loop,
`fullscreen += FFT(current) ? 1 : 0` — but the `FFT` macro reads the
variable `c`, which has just been reset to `head`, so the test is on the
head client. -/
def ufc_write_indexes (l : List Client) (cur : Client) : List Nat :=
  let fs := (l.filter fun c => FFT c).length
  let ft := (l.filter fun c => c.is_fullscreen = false).length
  let first := if cur.is_floating || cur.is_transient then 0 else fs
  let fs1 := match l with
    | [] => fs
    | h :: _ => if FFT h then fs + 1 else fs
  first :: (ufc_write_loop cur l fs1 ft l.length).1

/-- The indexes read by the final raise loop
`for (float_trans = 0; float_trans <= all; ++float_trans)
  xcb_elevate_window(windows[all - float_trans]);`
where `all` has the value left by the banding loop. -/
def ufc_read_indexes (l : List Client) (cur : Client) : List Nat :=
  let fs := (l.filter fun c => FFT c).length
  let ft := (l.filter fun c => c.is_fullscreen = false).length
  let fs1 := match l with
    | [] => fs
    | h :: _ => if FFT h then fs + 1 else fs
  let al := (ufc_write_loop cur l fs1 ft l.length).2
  (List.range (al + 1)).map fun k => al - k

/-- Pointer-level state for the claims about the raw list shape: `nextf p`
is the `next` field stored at address `p` (addresses of freed clients keep
their junk contents and are simply never reached), `head` is the list head
pointer of the workspace the operations run on, and `cnt` is the allocation
counter (`calloc` always returns a fresh address).  Creation and
destruction only ever touch the active workspace's list, so a single
head pointer suffices: all other workspaces stay empty along such a
sequence. -/
structure HState where
  nextf : Nat → Option Nat
  head : Option Nat
  cnt : Nat

/-- The walk of `prev_client` at the pointer level
(`for (p = head; p->next && p->next != c; p = p->next)`).  The fuel only
bounds the walk for totality; it is always sufficient on an acyclic
list. -/
def hprev_walk (nf : Nat → Option Nat) : Nat → Nat → Nat → Nat
  | 0, p, _ => p
  | fuel + 1, p, cid =>
    match nf p with
    | none => p
    | some q => if q = cid then p else hprev_walk nf fuel q cid

/-- `prev_client(c)` at the pointer level. -/
def hprev_client (s : HState) (c : Option Nat) : Option Nat :=
  match c, s.head with
  | none, _ => none
  | some _, none => none
  | some cid, some h =>
    match s.nextf h with
    | none => none
    | some _ => some (hprev_walk s.nextf s.cnt h cid)

/-- `client_from_window` at the pointer level: `calloc` a fresh client
(zeroed, so `next = NULL`), find the tail via `prev_client(head)`, then
`head = c`, `t->next = c` or `head->next = c` depending on the branch. -/
def client_from_window_h (s : HState) : HState :=
  let c := s.cnt
  let nf0 := fupd s.nextf c none
  match s.head with
  | none => { nextf := nf0, head := some c, cnt := c + 1 }
  | some h =>
    match hprev_client { s with nextf := nf0 } (some h) with
    | some t => { nextf := fupd nf0 t (some c), head := some h, cnt := c + 1 }
    | none => { nextf := fupd nf0 h (some c), head := some h, cnt := c + 1 }

/-- The `temp` walk of `remove_client` at the pointer level, after the
`&head` case has been peeled off: find the predecessor link targeting
`cid`.  `none` means the walk ran off the end of the list, after which the
C code dereferences a null `temp`. -/
def hremove_walk (nf : Nat → Option Nat) : Nat → Nat → Nat → Option Nat
  | 0, _, _ => none
  | fuel + 1, p, cid =>
    match nf p with
    | none => none
    | some q => if q = cid then some p else hremove_walk nf fuel q cid

/-- `remove_client` at the pointer level, list-structure effect only (the
focus bookkeeping lives in the list-level `remove_client`): unlink via
`*temp = c->next`, then `if (c == head) head = NULL;`.  Removal of a
client that is not on the searched list dereferences a null `temp`
(`none`). -/
def remove_client_h (s : HState) (cid : Nat) : Option HState :=
  match s.head with
  | none => none
  | some h =>
    if h = cid then
      let head' := s.nextf cid
      some { s with head := if head' = some cid then none else head' }
    else
      match hremove_walk s.nextf s.cnt h cid with
      | none => none
      | some p => some { s with nextf := fupd s.nextf p (s.nextf cid) }

/-- One client creation (the window handle only fills `c->win` and does not
affect the list shape) or one client destruction naming a client id. -/
inductive HOp where
  | create : HOp
  | destroy : Nat → HOp

def hstep (s : HState) : HOp → Option HState
  | .create => some (client_from_window_h s)
  | .destroy cid => remove_client_h s cid

def hrun : HState → List HOp → Option HState
  | s, [] => some s
  | s, op :: ops =>
    match hstep s op with
    | none => none
    | some s' => hrun s' ops

/-- The empty initial state: no clients allocated, empty list. -/
def hinit : HState := { nextf := fun _ => none, head := none, cnt := 0 }

/-- `Chain nf o l`: following the `next` links from the pointer `o`
traverses exactly the addresses in `l` and terminates at null.  A list
head that admits a `Chain` with no duplicate addresses is acyclic and its
terminal `next` is null. -/
inductive Chain (nf : Nat → Option Nat) : Option Nat → List Nat → Prop
  | nil : Chain nf none []
  | cons {p : Nat} {ps : List Nat} (h : Chain nf (nf p) ps) :
      Chain nf (some p) (p :: ps)

/-- The list-shape invariant of the Client Store: the head chain is finite
(terminal `next` null), duplicate-free (acyclic) and inside the allocated
region. -/
def HInv (s : HState) : Prop :=
  ∃ l : List Nat, Chain s.nextf s.head l ∧ l.Nodup ∧ ∀ p ∈ l, p < s.cnt

/-- The invariant, lifted over crashed runs: a sequence whose handling hits
undefined behaviour terminates the process and leaves no state to
inspect. -/
def HInvOpt : Option HState → Prop
  | none => True
  | some s => HInv s

/-- A plain tiled client (no flags). -/
def cA : Client := ⟨1, 0, 0, 0, 0, false, false, false, 10⟩

def cB : Client := ⟨2, 0, 0, 0, 0, false, false, false, 20⟩

def cC : Client := ⟨3, 0, 0, 0, 0, false, false, false, 30⟩

/-- A floating client (FFT). -/
def cF : Client := ⟨4, 0, 0, 0, 0, false, true, false, 40⟩

def cX : Client := ⟨5, 0, 0, 0, 0, false, false, false, 42⟩

def emptyWS : Workspace := ⟨ZOOM, [], none, none⟩

/-- Fresh startup state: all workspace slots empty, empty live list. -/
def wm_init : WMState :=
  { workspaces := fun _ => emptyWS, head := [], prev_foc := none,
    current := none, current_workspace := 0, prev_workspace := 0,
    layout := ZOOM, prev_layout := ZOOM, next_id := 0 }

/-- Two workspaces; workspace 0 is active with the single client `cA` both
current and previously focused; workspace 1 is empty. -/
def c2s : WMState :=
  { workspaces := fun _ => emptyWS, head := [cA], prev_foc := some 1,
    current := some 1, current_workspace := 0, prev_workspace := 0,
    layout := ZOOM, prev_layout := ZOOM, next_id := 6 }

/-- Two workspaces; workspace 0 is active and empty, workspace 1 holds the
client `cX` (window handle 42). -/
def c3s : WMState :=
  { workspaces := fupd (fun _ => emptyWS) 1 ⟨ZOOM, [cX], none, none⟩,
    head := [], prev_foc := none, current := none, current_workspace := 0,
    prev_workspace := 0, layout := ZOOM, prev_layout := ZOOM, next_id := 6 }

/-- Active list `[cA, cB, cC]`, current `cA`, previously focused `cC`. -/
def c5s : WMState :=
  { workspaces := fun _ => emptyWS, head := [cA, cB, cC],
    prev_foc := some 3, current := some 1, current_workspace := 0,
    prev_workspace := 0, layout := ZOOM, prev_layout := ZOOM, next_id := 6 }

/-- Active list `[cA, cB]`, current `cB`, previously focused `cA` (so the
current client is the `prev_client` of `prev_foc`). -/
def c5w_s : WMState :=
  { workspaces := fun _ => emptyWS, head := [cA, cB],
    prev_foc := some 1, current := some 2, current_workspace := 0,
    prev_workspace := 0, layout := ZOOM, prev_layout := ZOOM, next_id := 6 }

/-- Two workspaces; workspace 0 active with one client, ordinary focus
state (`prev_foc` unset), workspace 1 empty. -/
def c2w_s : WMState :=
  { workspaces := fun _ => emptyWS, head := [cA], prev_foc := none,
    current := some 1, current_workspace := 0, prev_workspace := 0,
    layout := ZOOM, prev_layout := ZOOM, next_id := 6 }

/-- The ids of the clients in a list (pointer identities). -/
def ids (l : List Client) : List Nat := l.map fun c => c.id

/-! ## Helper lemmas -/

theorem prev_client_cons (p : Client) (t : List Client) (cid : Nat) (h : t ≠ []) :
    prev_client (p :: t) (some cid) = some (prev_walk p t cid) := by
  cases t with
  | nil => exact absurd rfl h
  | cons q qs => rfl

theorem prev_walk_not_mem (cid : Nat) :
    ∀ (rest : List Client) (p : Client), cid ∉ ids rest →
      prev_walk p rest cid = (p :: rest).getLast (List.cons_ne_nil p rest) := by
  intro rest
  induction rest with
  | nil => intro p _; rfl
  | cons q qs ih =>
    intro p h
    have hq : q.id ≠ cid := by
      intro hc; exact h (by simp [ids, hc])
    have hqs : cid ∉ ids qs := by
      intro hc; exact h (by simp [ids] at hc ⊢; exact Or.inr hc)
    rw [prev_walk, if_neg (fun hc => hq hc), ih q hqs,
      List.getLast_cons (List.cons_ne_nil q qs)]

theorem prev_walk_mem (x : Client) (l2 : List Client) :
    ∀ (l1 : List Client) (p : Client), x.id ∉ ids l1 →
      prev_walk p (l1 ++ x :: l2) x.id = (p :: l1).getLast (List.cons_ne_nil p l1) := by
  intro l1
  induction l1 with
  | nil => intro p _; rw [List.nil_append, prev_walk, if_pos rfl]; rfl
  | cons q qs ih =>
    intro p h
    have hq : q.id ≠ x.id := by
      intro hc; exact h (by simp [ids, hc])
    have hqs : x.id ∉ ids qs := by
      intro hc; exact h (by simp [ids] at hc ⊢; exact Or.inr hc)
    rw [List.cons_append, prev_walk, if_neg (fun hc => hq hc), ih q hqs,
      List.getLast_cons (List.cons_ne_nil q qs)]

/-! ## Claim theorems -/

/-- C3.  The spec says a destroy notification unlinks the named client from
whichever workspace's list holds it, active or not, and frees it.  The code
violates this: `win_to_client` does find the client on workspace 1, but
`remove_client`'s search loop calls `select_workspace(cw)` with the saved
current index instead of the loop index `w`, so it only ever searches the
active workspace's (here empty) list, runs `temp` off the end and
dereferences a null pointer (modelled as `none`). -/
theorem spec_c3_destroy_other_workspace_crashes :
    (win_to_client 2 c3s 42).2 = some cX ∧
    c3s.workspaces 1 = ⟨ZOOM, [cX], none, none⟩ ∧
    (destroy_event 2 c3s 42).isNone = true :=
  ⟨rfl, rfl, rfl⟩

/-- C4 (counterexample).  The claim says ZOOM is forced whenever the tiled
(non-FFT) client count is ≤ 1; but with a floating head and one further
client the tiled count is 0 while `arrange_windows` still dispatches the
workspace's layout (`head->next` is non-null), here VSTACK. -/
theorem spec_c4_dispatch_counterexample :
    get_non_tff_count [cF, cB] ≤ 1 ∧
    arrange_dispatch VSTACK [cF, cB] = VSTACK ∧ VSTACK ≠ ZOOM := by
  decide

/-- C4 (amended).  Arranging a non-empty workspace dispatches on the
workspace's `layout` field unless the TOTAL client count is ≤ 1
(`head->next` null), in which case ZOOM is forced; the tiled-client count
plays no part in the dispatch. -/
theorem spec_c4_dispatch_amended (lay : Nat) (l : List Client) (_h : l ≠ []) :
    arrange_dispatch lay l = if l.length ≤ 1 then ZOOM else lay := by
  unfold arrange_dispatch
  by_cases h2 : 2 ≤ l.length
  · rw [if_pos h2, if_neg (by omega)]
  · rw [if_neg h2, if_pos (by omega)]

theorem spec_c4_dispatch_amended_witness :
    arrange_dispatch GRID [cA] = if ([cA] : List Client).length ≤ 1 then ZOOM else GRID :=
  spec_c4_dispatch_amended GRID [cA] (by decide)

/-- C6 (counterexample).  The claim says `prev_client` returns none when
`c` is the head of the list; on the two-client list `[cA, cB]` it instead
returns the last node `cB` (the walk never finds a node whose next is the
head, and returns the tail). -/
theorem spec_c6_prev_client_counterexample :
    prev_client [cA, cB] (some cA.id) = some cB ∧
    prev_client [cA, cB] (some cA.id) ≠ none := by
  decide

/-- C6 (amended).  `prev_client(list, c)` returns none when `c` is null or
the list has fewer than two nodes; on a longer list it returns the node
whose `next` points to `c` when `c` is a non-head member, and returns the
LAST node (not none) when `c` is the head or is not a member at all. -/
theorem spec_c6_prev_client_amended :
    (∀ l : List Client, prev_client l none = none) ∧
    (∀ (l : List Client) (cid : Nat), l.length ≤ 1 →
      prev_client l (some cid) = none) ∧
    (∀ (p : Client) (l1 : List Client) (x : Client) (l2 : List Client),
      (ids (p :: l1 ++ x :: l2)).Nodup →
      prev_client (p :: l1 ++ x :: l2) (some x.id) =
        some ((p :: l1).getLast (List.cons_ne_nil p l1))) ∧
    (∀ (p : Client) (rest : List Client) (cid : Nat), rest ≠ [] →
      cid ∉ ids rest →
      prev_client (p :: rest) (some cid) =
        some ((p :: rest).getLast (List.cons_ne_nil p rest))) := by
  refine ⟨?_, ?_, ?_, ?_⟩
  · intro l
    match l with
    | [] => rfl
    | [_] => rfl
    | _ :: _ :: _ => rfl
  · intro l cid h
    match l, h with
    | [], _ => rfl
    | [_], _ => rfl
  · intro p l1 x l2 hnd
    have hne : l1 ++ x :: l2 ≠ [] := by
      cases l1 <;> simp
    have hx : x.id ∉ ids l1 := by
      intro hc
      have : ids (p :: l1 ++ x :: l2) =
          (ids (p :: l1)) ++ (ids (x :: l2)) := by
        simp [ids]
      rw [this] at hnd
      rcases List.nodup_append.1 hnd with ⟨_, _, hdisj⟩
      exact hdisj (a := x.id) (by simp [ids] at hc ⊢; exact Or.inr hc)
        (by simp [ids])
    rw [List.cons_append, prev_client_cons p _ _ hne, prev_walk_mem x l2 l1 p hx]
  · intro p rest cid hne hnm
    rw [prev_client_cons p _ _ hne, prev_walk_not_mem cid rest p hnm]

theorem spec_c6_prev_client_amended_witness :
    prev_client [cA, cB, cC] (some 2) = some cA :=
  spec_c6_prev_client_amended.2.2.1 cA [] cB [cC] (by decide)

/-- C7.  Three tiled clients under VSTACK on a 1000×900 screen with
`GAP = 0`, `BORDER_PX = 0`: each client does get height 300 and the full
width 1000 and they appear in creation order top to bottom, but the head
client is placed at y = 1, not at the top of the screen: the literal
`true` intended for `xcb_move_resize`'s `draw_gap` parameter is passed in
the `y` position (the call's argument order does not match the
signature). -/
theorem spec_c7_vstack_geometry_bug :
    stack 0 0 1000 900 true [cA, cB, cC] =
      some [(10, ⟨0, 1, 1000, 300⟩), (20, ⟨0, 300, 1000, 300⟩),
            (30, ⟨0, 600, 1000, 300⟩)] ∧
    (1 : Int) ≠ 0 :=
  ⟨rfl, by decide⟩

/-- C8.  `change_workspace` rejects an argument that is out of range or
equal to the active index, and `change_layout` rejects an argument that is
out of the layout enumeration or equal to the current layout; both return
before touching any state (silent no-ops). -/
theorem spec_c8_bad_index_noop (W : Nat) (s : WMState) (i k : Int)
    (hi : (W : Int) ≤ i ∨ i < 0 ∨ i = (s.current_workspace : Int))
    (hk : k = (s.layout : Int) ∨ (END_LAYOUT : Int) ≤ k ∨ k < 0) :
    change_workspace W s i = some s ∧ change_layout W s k = some s := by
  constructor
  · unfold change_workspace
    rw [if_pos hi]
  · unfold change_layout
    rw [if_pos hk]

theorem spec_c8_bad_index_noop_witness :
    change_workspace 1 wm_init 5 = some wm_init ∧
    change_layout 1 wm_init (-1) = some wm_init :=
  spec_c8_bad_index_noop 1 wm_init 5 (-1) (by decide) (by decide)

/-- C9 (counterexample).  A reachable state in which `stack` runs with a
zero divisor: mapping a transient window into an empty workspace and then
a normal window leaves a two-client list whose head is FFT, so
`get_non_tff_count` is 0; switching the layout to VSTACK then dispatches
`stack`, whose `span / n` divides by zero (the run is modelled as
crashing, `isNone`). -/
theorem spec_c9_zero_divisor_counterexample :
    ((map_request_event 1 wm_init 1 true false).bind fun s =>
        map_request_event 1 s 2 false false).map
      (fun s2 => (get_non_tff_count s2.head, s2.head.length,
                  (change_layout 1 s2 3).isNone)) =
      some (0, 2, true) :=
  rfl

/-- C9 (amended).  The divisor `get_non_tff_count()` is positive exactly
when the head of the list is itself tiled (non-FFT); whenever the head is
fullscreen, floating or transient the count is 0 regardless of the rest of
the list, and `stack`'s division is undefined. -/
theorem spec_c9_zero_divisor_amended (c : Client) (cs : List Client) :
    (FFT c = false → 0 < get_non_tff_count (c :: cs)) ∧
    (FFT c = true → get_non_tff_count (c :: cs) = 0) := by
  constructor <;> intro h <;> simp [get_non_tff_count, h]

theorem spec_c9_zero_divisor_amended_witness :
    0 < get_non_tff_count (cA :: [cB]) ∧ get_non_tff_count (cF :: [cB]) = 0 :=
  ⟨(spec_c9_zero_divisor_amended cA [cB]).1 (by decide),
   (spec_c9_zero_divisor_amended cF [cB]).2 (by decide)⟩

/-- C10.  On a single-client list the final raise loop of
`update_focused_client` runs `float_trans` from 0 up to and INCLUDING the
`all` counter (left at 1 by the banding loop, which never decrements it
when every non-current client is exempt — here there are none), so it
reads `windows[1]` in a variable-length array of length 1: an index
outside `[0, all-1]`. -/
theorem spec_c10_raise_loop_out_of_bounds :
    ufc_read_indexes [cA] cA = [1, 0] ∧ ([cA] : List Client).length = 1 ∧
    ¬(∀ i ∈ ufc_read_indexes [cA] cA, i < ([cA] : List Client).length) := by
  decide

/-- C5 (counterexample).  List `[cA, cB, cC]` with current `cA` and
`prev_foc = cC`: the first toggle focuses `cC` and sets `prev_foc` to
`cC`'s list predecessor `cB` (not to the old current), so the second
toggle focuses `cB`, not the original `cA`. -/
theorem spec_c5_toggle_counterexample :
    ((update_focused_client 1 c5s c5s.prev_foc).bind fun t =>
        (update_focused_client 1 t t.prev_foc).map fun u => u.current) =
      some (some 2) ∧
    c5s.current = some 1 ∧ (2 : Nat) ≠ 1 :=
  ⟨rfl, rfl, by decide⟩

/-- C2 (counterexample).  Workspace 0 holds one client which is both
`current` and `prev_foc`; switching to workspace 1 and back restores the
list and layout but the final `update_focused_client(current)` takes the
`c == prev_foc` branch and rewrites `prev_foc` to `prev_client(current)`,
which is null for a single-client list — the focus pair is not restored. -/
theorem spec_c2_roundtrip_counterexample :
    ((change_workspace 2 c2s 1).bind fun t =>
        (change_workspace 2 t 0).map fun u =>
          (u.head, u.current, u.prev_foc, u.layout)) =
      some ([cA], some 1, none, ZOOM) ∧
    (c2s.head, c2s.current, c2s.prev_foc, c2s.layout) =
      ([cA], some 1, some 1, ZOOM) ∧
    (none : Option Nat) ≠ some 1 :=
  ⟨rfl, rfl, by decide⟩

theorem fupd_same {α : Type} (f : Nat → α) (i : Nat) (v : α) : fupd f i v i = v := by
  simp [fupd]

theorem fupd_other {α : Type} (f : Nat → α) (i k : Nat) (v : α) (h : k ≠ i) :
    fupd f i v k = f k := by
  simp [fupd, h]

theorem fupd_self {α : Type} (f : Nat → α) (i : Nat) : fupd f i (f i) = f := by
  funext k
  by_cases h : k = i <;> simp [fupd, h]

theorem select_workspace_eq (W : Nat) (s : WMState) (m : Nat)
    (hcw : s.current_workspace < W) :
    select_workspace W s m =
      { s with
        workspaces := fupd s.workspaces s.current_workspace (liveWS s)
        head := (fupd s.workspaces s.current_workspace (liveWS s) m).head
        prev_foc := (fupd s.workspaces s.current_workspace (liveWS s) m).prev_foc
        current := (fupd s.workspaces s.current_workspace (liveWS s) m).current
        layout := (fupd s.workspaces s.current_workspace (liveWS s) m).layout
        current_workspace := m } := by
  unfold select_workspace save_workspace
  rw [if_pos hcw]

theorem select_workspace_synced (W : Nat) (s : WMState) (m : Nat)
    (hsync : s.workspaces s.current_workspace = liveWS s)
    (hcw : s.current_workspace < W) :
    select_workspace W s m =
      { s with
        head := (s.workspaces m).head
        prev_foc := (s.workspaces m).prev_foc
        current := (s.workspaces m).current
        layout := (s.workspaces m).layout
        current_workspace := m } := by
  rw [select_workspace_eq W s m hcw, ← hsync, fupd_self]

theorem ws_info_loop_append (W : Nat) (s : WMState) (l : List Nat) (w : Nat) :
    ws_info_loop W s (l ++ [w]) = select_workspace W (ws_info_loop W s l) w := by
  induction l generalizing s with
  | nil => rfl
  | cons a l ih => simpa [ws_info_loop] using ih (select_workspace W s a)

theorem ws_info_loop_range (W : Nat) (s : WMState)
    (hcw : s.current_workspace < W) :
    ∀ m : Nat, 1 ≤ m → m ≤ W →
      ws_info_loop W s (List.range m) =
        { s with
          workspaces := fupd s.workspaces s.current_workspace (liveWS s)
          head := (fupd s.workspaces s.current_workspace (liveWS s) (m - 1)).head
          prev_foc := (fupd s.workspaces s.current_workspace (liveWS s) (m - 1)).prev_foc
          current := (fupd s.workspaces s.current_workspace (liveWS s) (m - 1)).current
          layout := (fupd s.workspaces s.current_workspace (liveWS s) (m - 1)).layout
          current_workspace := m - 1 } := by
  intro m
  induction m with
  | zero => intro h _; omega
  | succ m ih =>
    intro _ hle
    by_cases hm : m = 0
    · subst hm
      have hr : List.range 1 = [0] := rfl
      rw [hr]
      show select_workspace W s 0 = _
      rw [select_workspace_eq W s 0 hcw]
    · have h1m : 1 ≤ m := by omega
      have hmW : m ≤ W := by omega
      rw [List.range_succ, ws_info_loop_append, ih h1m hmW]
      rw [select_workspace_synced W _ m rfl (by simpa using Nat.lt_of_lt_of_le (by omega) hmW)]
      simp

theorem workspace_info_eq (W : Nat) (s : WMState) (hcw : s.current_workspace < W) :
    workspace_info W s =
      { s with workspaces := fupd s.workspaces s.current_workspace (liveWS s) } := by
  have h1 : 1 ≤ W := by omega
  unfold workspace_info
  rw [ws_info_loop_range W s hcw W h1 (le_refl W)]
  by_cases h : s.current_workspace = W - 1
  · rw [if_neg (by simp [h])]
    rw [← h, fupd_same]
    simp [liveWS]
  · rw [if_pos h]
    rw [select_workspace_synced W _ s.current_workspace rfl
      (show W - 1 < W by omega)]
    simp [fupd_same, liveWS]

theorem resolve_focus_self (l : List Client) (cur pf : Option Nat)
    (h1 : cur ≠ pf) : resolve_focus l cur pf cur = (cur, pf) := by
  unfold resolve_focus
  rw [if_neg h1, if_neg (show ¬(cur ≠ cur) from fun hc => hc rfl)]

theorem arrange_windows_some (W : Nat) (s : WMState)
    (hsafe : stack_safe s.layout s.head) :
    arrange_windows W s = some (if s.head = [] then s else workspace_info W s) := by
  unfold arrange_windows
  by_cases h : s.head = []
  · rw [if_pos h, if_pos h]
  · unfold stack_safe at hsafe
    rw [if_neg h, if_neg hsafe, if_neg h]

theorem update_focused_client_fix (W : Nat) (s : WMState)
    (hne : s.head ≠ []) (hcur : s.current ≠ none) (hcp : s.current ≠ s.prev_foc)
    (hsafe : stack_safe s.layout s.head) :
    update_focused_client W s s.current = some (workspace_info W s) := by
  obtain ⟨v, hv⟩ := Option.ne_none_iff_exists'.mp hcur
  unfold update_focused_client
  rw [if_neg hne]
  simp only [resolve_focus_self s.head s.current s.prev_foc hcp]
  rw [hv]
  show arrange_windows W { s with current := some v, prev_foc := s.prev_foc } = _
  rw [← hv]
  rw [show { s with current := s.current, prev_foc := s.prev_foc } = s from rfl]
  rw [arrange_windows_some W s hsafe, if_neg hne]

theorem prev_client_two (l : List Client) (cid : Nat) (h : 2 ≤ l.length) :
    ∃ c : Client, prev_client l (some cid) = some c := by
  match l, h with
  | a :: b :: rest, _ => exact ⟨_, rfl⟩

theorem arrange_windows_some_ne (W : Nat) (s : WMState)
    (hne : s.head ≠ []) (hsafe : stack_safe s.layout s.head) :
    arrange_windows W s = some (workspace_info W s) := by
  unfold stack_safe at hsafe
  unfold arrange_windows
  rw [if_neg hne, if_neg hsafe]

theorem resolve_focus_toggle (l : List Client) (cur : Option Nat) (p : Nat) :
    resolve_focus l cur (some p) (some p) =
      (some p, (prev_client l (some p)).map fun x => x.id) := by
  unfold resolve_focus
  rw [if_pos rfl]

theorem update_focused_client_toggle (W : Nat) (s : WMState) (p : Nat)
    (hne : s.head ≠ []) (hpf : s.prev_foc = some p)
    (hsafe : stack_safe s.layout s.head) :
    update_focused_client W s s.prev_foc =
      some (workspace_info W
        { s with current := some p,
                 prev_foc := (prev_client s.head (some p)).map fun x => x.id }) := by
  unfold update_focused_client
  rw [if_neg hne, hpf]
  simp only [resolve_focus_toggle s.head s.current p]
  show arrange_windows W
      { s with current := some p,
               prev_foc := (prev_client s.head (some p)).map fun x => x.id } = _
  exact arrange_windows_some_ne W _ hne hsafe

/-- C5 (amended).  The double alt-tab toggle returns focus to the original
`current` exactly when the pre-state already relates the pair by the code's
own bookkeeping: `prev_foc` is set and `current` is the `prev_client`
predecessor of `prev_foc`.  (In general the second toggle lands on the
list predecessor of the first candidate, not on the old `current` — see
the counterexample.) -/
theorem spec_c5_toggle_amended (W : Nat) (s : WMState) (p : Nat)
    (hlen : 2 ≤ s.head.length)
    (hpf : s.prev_foc = some p)
    (hcur : s.current = (prev_client s.head (some p)).map fun x => x.id)
    (hsafe : stack_safe s.layout s.head)
    (hcw : s.current_workspace < W) :
    ∃ t u, update_focused_client W s s.prev_foc = some t ∧
      update_focused_client W t t.prev_foc = some u ∧
      u.current = s.current := by
  have hne : s.head ≠ [] := by
    intro hc
    rw [hc] at hlen
    simp at hlen
  obtain ⟨q, hq⟩ := prev_client_two s.head p hlen
  have hcurq : s.current = some q.id := by
    rw [hcur, hq]
    rfl
  have h1 : update_focused_client W s s.prev_foc =
      some (workspace_info W { s with current := some p, prev_foc := s.current }) := by
    rw [update_focused_client_toggle W s p hne hpf hsafe, ← hcur]
  have ht : workspace_info W { s with current := some p, prev_foc := s.current } =
      { s with workspaces := fupd s.workspaces s.current_workspace
                 ⟨s.layout, s.head, s.current, some p⟩,
               current := some p, prev_foc := s.current } := by
    rw [workspace_info_eq W
      { s with current := some p, prev_foc := s.current } hcw]
    rfl
  refine ⟨workspace_info W { s with current := some p, prev_foc := s.current },
          workspace_info W
            { s with workspaces := fupd s.workspaces s.current_workspace
                       ⟨s.layout, s.head, s.current, some p⟩,
                     current := some q.id,
                     prev_foc := (prev_client s.head (some q.id)).map fun x => x.id },
          h1, ?_, ?_⟩
  · rw [ht]
    exact update_focused_client_toggle W _ q.id hne hcurq hsafe
  · rw [workspace_info_eq W
        { s with workspaces := fupd s.workspaces s.current_workspace
                   ⟨s.layout, s.head, s.current, some p⟩,
                 current := some q.id,
                 prev_foc := (prev_client s.head (some q.id)).map fun x => x.id }
        hcw]
    exact hcurq.symm

theorem spec_c5_toggle_amended_witness :
    ∃ t u, update_focused_client 1 c5w_s c5w_s.prev_foc = some t ∧
      update_focused_client 1 t t.prev_foc = some u ∧
      u.current = c5w_s.current :=
  spec_c5_toggle_amended 1 c5w_s 1 (by decide) rfl (by decide) (by decide)
    (by decide)

theorem fupd_fupd {α : Type} (f : Nat → α) (i : Nat) (v w : α) :
    fupd (fupd f i v) i w = fupd f i w := by
  funext k
  by_cases h : k = i <;> simp [fupd, h]

theorem update_focused_client_empty (W : Nat) (s : WMState) (c : Option Nat)
    (h : s.head = []) :
    update_focused_client W s c =
      some { s with prev_foc := none, current := none } := by
  unfold update_focused_client
  rw [if_pos h]

theorem resolve_focus_toggle_none (l : List Client) (cur : Option Nat) :
    resolve_focus l cur none none =
      (l.head?.map fun x => x.id,
       (prev_client l (l.head?.map fun x => x.id)).map fun x => x.id) := by
  unfold resolve_focus
  rw [if_pos rfl]

theorem update_focused_client_self_shape (W : Nat) (s : WMState)
    (hne : s.head ≠ [])
    (hok : ¬(s.current = none ∧ s.prev_foc ≠ none))
    (hsafe : stack_safe s.layout s.head) :
    ∃ X Y : Option Nat,
      update_focused_client W s s.current =
        some (workspace_info W { s with current := X, prev_foc := Y }) ∧
      (s.current ≠ none ∧ s.current ≠ s.prev_foc →
        X = s.current ∧ Y = s.prev_foc) := by
  by_cases hcp : s.current = s.prev_foc
  · cases hpf : s.prev_foc with
    | some p =>
      refine ⟨some p, (prev_client s.head (some p)).map fun x => x.id, ?_, ?_⟩
      · rw [show s.current = s.prev_foc from hcp]
        exact update_focused_client_toggle W s p hne hpf hsafe
      · intro hc
        exact absurd (hcp.trans hpf) hc.2
    | none =>
      have hc : s.current = none := hcp.trans hpf
      refine ⟨s.head.head?.map fun x => x.id,
              (prev_client s.head (s.head.head?.map fun x => x.id)).map fun x => x.id,
              ?_, ?_⟩
      · obtain ⟨a, tl, hl⟩ : ∃ a tl, s.head = a :: tl := by
          cases hh : s.head with
          | nil => exact absurd hh hne
          | cons a tl => exact ⟨a, tl, rfl⟩
        unfold update_focused_client
        rw [if_neg hne, hc, hpf]
        simp only [resolve_focus_toggle_none s.head none]
        have hsome : s.head.head?.map (fun x => x.id) = some a.id := by
          rw [hl]
          rfl
        rw [hsome]
        show arrange_windows W
            { s with
              current := some a.id,
              prev_foc := (prev_client s.head (some a.id)).map fun x => x.id } = _
        exact arrange_windows_some_ne W _ hne hsafe
      · intro hc2
        exact absurd hc hc2.1
  · have hcur : s.current ≠ none := by
      intro hc
      rcases hpf : s.prev_foc with _ | v
      · exact hcp (by rw [hc, hpf])
      · exact hok ⟨hc, by rw [hpf]; simp⟩
    refine ⟨s.current, s.prev_foc, ?_, fun _ => ⟨rfl, rfl⟩⟩
    rw [update_focused_client_fix W s hne hcur hcp hsafe]

theorem fupd_absorb {α : Type} (f : Nat → α) (i : Nat) (v : α) (h : v = f i) :
    fupd f i v = f := by
  rw [h, fupd_self]

theorem select_workspace_mk (W : Nat) (ws : Nat → Workspace) (hd : List Client)
    (pf cur : Option Nat) (cw pw lay pl nid m : Nat) (hcw : cw < W) :
    select_workspace W ⟨ws, hd, pf, cur, cw, pw, lay, pl, nid⟩ m =
      ⟨fupd ws cw ⟨lay, hd, pf, cur⟩,
       (fupd ws cw ⟨lay, hd, pf, cur⟩ m).head,
       (fupd ws cw ⟨lay, hd, pf, cur⟩ m).prev_foc,
       (fupd ws cw ⟨lay, hd, pf, cur⟩ m).current,
       m, pw, (fupd ws cw ⟨lay, hd, pf, cur⟩ m).layout, pl, nid⟩ := by
  unfold select_workspace save_workspace
  rw [if_pos hcw]
  rfl

theorem select3_eq (W : Nat) (s : WMState) (j : Nat)
    (hcw : s.current_workspace < W) (hjW : j < W)
    (hne : j ≠ s.current_workspace) :
    select_workspace W
      (select_workspace W
        (select_workspace W { s with prev_workspace := s.current_workspace } j)
        (select_workspace W { s with prev_workspace := s.current_workspace }
          j).prev_workspace)
      j =
      { s with
        workspaces := fupd s.workspaces s.current_workspace (liveWS s),
        head := (s.workspaces j).head,
        prev_foc := (s.workspaces j).prev_foc,
        current := (s.workspaces j).current,
        layout := (s.workspaces j).layout,
        current_workspace := j,
        prev_workspace := s.current_workspace } := by
  obtain ⟨ws, hd, pf, cur, cw, pw, lay, pl, nid⟩ := s
  show select_workspace W
      (select_workspace W
        (select_workspace W ⟨ws, hd, pf, cur, cw, cw, lay, pl, nid⟩ j)
        (select_workspace W ⟨ws, hd, pf, cur, cw, cw, lay, pl, nid⟩
          j).prev_workspace)
      j = _
  rw [select_workspace_mk W ws hd pf cur cw cw lay pl nid j hcw]
  rw [show (⟨fupd ws cw ⟨lay, hd, pf, cur⟩,
       (fupd ws cw ⟨lay, hd, pf, cur⟩ j).head,
       (fupd ws cw ⟨lay, hd, pf, cur⟩ j).prev_foc,
       (fupd ws cw ⟨lay, hd, pf, cur⟩ j).current,
       j, cw, (fupd ws cw ⟨lay, hd, pf, cur⟩ j).layout, pl, nid⟩ :
      WMState).prev_workspace = cw from rfl]
  rw [fupd_other ws cw j ⟨lay, hd, pf, cur⟩ hne]
  rw [select_workspace_mk W (fupd ws cw ⟨lay, hd, pf, cur⟩) (ws j).head
    (ws j).prev_foc (ws j).current j cw (ws j).layout pl nid cw hjW]
  rw [show (⟨(ws j).layout, (ws j).head, (ws j).prev_foc, (ws j).current⟩ :
      Workspace) = ws j from rfl]
  rw [fupd_absorb (fupd ws cw ⟨lay, hd, pf, cur⟩) j (ws j)
    (fupd_other ws cw j ⟨lay, hd, pf, cur⟩ hne).symm]
  rw [fupd_same ws cw ⟨lay, hd, pf, cur⟩]
  rw [show (⟨lay, hd, pf, cur⟩ : Workspace).head = hd from rfl,
      show (⟨lay, hd, pf, cur⟩ : Workspace).prev_foc = pf from rfl,
      show (⟨lay, hd, pf, cur⟩ : Workspace).current = cur from rfl,
      show (⟨lay, hd, pf, cur⟩ : Workspace).layout = lay from rfl]
  rw [select_workspace_mk W (fupd ws cw ⟨lay, hd, pf, cur⟩) hd pf cur cw cw
    lay pl nid j hcw]
  rw [fupd_fupd ws cw ⟨lay, hd, pf, cur⟩ ⟨lay, hd, pf, cur⟩]
  rw [fupd_other ws cw j ⟨lay, hd, pf, cur⟩ hne]
  rfl

theorem change_workspace_ne (W : Nat) (s : WMState) (j : Nat)
    (hguard : ¬((W : Int) ≤ (j : Int) ∨ (j : Int) < 0 ∨
      (j : Int) = (s.current_workspace : Int))) :
    change_workspace W s (j : Int) =
      match arrange_windows W (select_workspace W
          (select_workspace W
            (select_workspace W
              { s with prev_workspace := s.current_workspace } j)
            (select_workspace W
              { s with prev_workspace := s.current_workspace } j).prev_workspace)
          j) with
      | none => none
      | some s5 =>
        match update_focused_client W s5 s5.current with
        | none => none
        | some s6 => some (workspace_info W s6) := by
  unfold change_workspace
  rw [if_neg hguard]
  rfl

theorem workspace_info_live (W : Nat) (s : WMState)
    (h : s.current_workspace < W) :
    (workspace_info W s).current_workspace = s.current_workspace ∧
    (workspace_info W s).head = s.head ∧
    (workspace_info W s).layout = s.layout ∧
    (workspace_info W s).current = s.current ∧
    (workspace_info W s).prev_foc = s.prev_foc ∧
    (∀ k, k ≠ s.current_workspace →
      (workspace_info W s).workspaces k = s.workspaces k) := by
  rw [workspace_info_eq W s h]
  exact ⟨rfl, rfl, rfl, rfl, rfl, fun k hk => fupd_other _ _ _ _ hk⟩

theorem change_workspace_tail (W : Nat) (s4 : WMState) (j : Nat)
    (hcw4 : s4.current_workspace = j) (hjW : j < W)
    (hj : s4.head = [] ∨ (s4.head ≠ [] ∧
          ¬(s4.current = none ∧ s4.prev_foc ≠ none) ∧
          stack_safe s4.layout s4.head)) :
    ∃ t,
      (match arrange_windows W s4 with
       | none => none
       | some s5 =>
         match update_focused_client W s5 s5.current with
         | none => none
         | some s6 => some (workspace_info W s6)) = some t ∧
      t.current_workspace = j ∧
      (∀ k, k ≠ j → t.workspaces k = s4.workspaces k) ∧
      t.head = s4.head ∧ t.layout = s4.layout ∧
      (s4.head ≠ [] ∧ s4.current ≠ none ∧ s4.current ≠ s4.prev_foc →
        t.current = s4.current ∧ t.prev_foc = s4.prev_foc) ∧
      (s4.head = [] → t.current = none ∧ t.prev_foc = none) := by
  have hcwW : s4.current_workspace < W := by
    rw [hcw4]
    exact hjW
  rcases hj with hA | ⟨hB, hok, hsafe⟩
  · have ha : arrange_windows W s4 = some s4 := by
      unfold arrange_windows
      rw [if_pos hA]
    have hu : update_focused_client W s4 s4.current =
        some { s4 with prev_foc := none, current := none } :=
      update_focused_client_empty W s4 s4.current hA
    obtain ⟨hL1, hL2, hL3, hL4, hL5, hL6⟩ :=
      workspace_info_live W { s4 with prev_foc := none, current := none } hcwW
    refine ⟨workspace_info W { s4 with prev_foc := none, current := none },
            ?_, ?_, ?_, ?_, ?_, ?_, ?_⟩
    · rw [ha]
      show (match update_focused_client W s4 s4.current with
            | none => none
            | some s6 => some (workspace_info W s6)) = _
      rw [hu]
    · exact hL1.trans hcw4
    · intro k hk
      exact hL6 k (by rw [show ({ s4 with prev_foc := none, current := none } :
        WMState).current_workspace = j from hcw4]; exact hk)
    · exact hL2
    · exact hL3
    · intro h
      exact absurd hA h.1
    · exact fun _ => ⟨hL4, hL5⟩
  · have ha : arrange_windows W s4 = some (workspace_info W s4) :=
      arrange_windows_some_ne W s4 hB hsafe
    have hw4 : workspace_info W s4 =
        { s4 with
          workspaces := fupd s4.workspaces s4.current_workspace (liveWS s4) } :=
      workspace_info_eq W s4 hcwW
    obtain ⟨X, Y, hupd, hXY⟩ := update_focused_client_self_shape W
      { s4 with
        workspaces := fupd s4.workspaces s4.current_workspace (liveWS s4) }
      hB hok hsafe
    obtain ⟨hL1, hL2, hL3, hL4, hL5, hL6⟩ := workspace_info_live W
      { s4 with
        workspaces := fupd s4.workspaces s4.current_workspace (liveWS s4),
        current := X, prev_foc := Y } hcwW
    obtain ⟨hM1, hM2, hM3, hM4, hM5, hM6⟩ := workspace_info_live W
      (workspace_info W
        { s4 with
          workspaces := fupd s4.workspaces s4.current_workspace (liveWS s4),
          current := X, prev_foc := Y })
      (by rw [hL1]; exact hcwW)
    refine ⟨workspace_info W (workspace_info W
        { s4 with
          workspaces := fupd s4.workspaces s4.current_workspace (liveWS s4),
          current := X, prev_foc := Y }), ?_, ?_, ?_, ?_, ?_, ?_, ?_⟩
    · rw [ha, hw4]
      show (match update_focused_client W
              { s4 with
                workspaces := fupd s4.workspaces s4.current_workspace (liveWS s4) }
              ({ s4 with
                workspaces := fupd s4.workspaces s4.current_workspace (liveWS s4) } :
                WMState).current with
            | none => none
            | some s6 => some (workspace_info W s6)) = _
      rw [hupd]
    · exact hM1.trans (hL1.trans hcw4)
    · intro k hk
      have hk4 : k ≠ s4.current_workspace := by
        rw [hcw4]
        exact hk
      have e1 := hM6 k (by rw [hL1]; exact hk4)
      have e2 := hL6 k hk4
      rw [e1, e2]
      exact fupd_other _ _ _ _ hk4
    · exact hM2.trans hL2
    · exact hM3.trans hL3
    · intro h
      obtain ⟨hx, hy⟩ := hXY ⟨h.2.1, h.2.2⟩
      exact ⟨(hM4.trans hL4).trans hx, (hM5.trans hL5).trans hy⟩
    · intro h
      exact absurd h hB

theorem change_workspace_go (W : Nat) (s : WMState) (j : Nat)
    (hcw : s.current_workspace < W) (hjW : j < W)
    (hne : j ≠ s.current_workspace)
    (hj : (s.workspaces j).head = [] ∨
          ((s.workspaces j).head ≠ [] ∧
            ¬((s.workspaces j).current = none ∧
              (s.workspaces j).prev_foc ≠ none) ∧
            stack_safe (s.workspaces j).layout (s.workspaces j).head)) :
    ∃ t, change_workspace W s (j : Int) = some t ∧
      t.current_workspace = j ∧
      (∀ k, k ≠ j → t.workspaces k =
        fupd s.workspaces s.current_workspace (liveWS s) k) ∧
      t.head = (s.workspaces j).head ∧
      t.layout = (s.workspaces j).layout ∧
      ((s.workspaces j).head ≠ [] ∧ (s.workspaces j).current ≠ none ∧
          (s.workspaces j).current ≠ (s.workspaces j).prev_foc →
        t.current = (s.workspaces j).current ∧
        t.prev_foc = (s.workspaces j).prev_foc) ∧
      ((s.workspaces j).head = [] →
        t.current = none ∧ t.prev_foc = none) := by
  have hguard : ¬((W : Int) ≤ (j : Int) ∨ (j : Int) < 0 ∨
      (j : Int) = (s.current_workspace : Int)) := by
    push_neg
    refine ⟨?_, ?_, ?_⟩ <;> omega
  rw [change_workspace_ne W s j hguard, select3_eq W s j hcw hjW hne]
  obtain ⟨t, htm, htcw, htws, hthead, htlay, htfix, htempty⟩ :=
    change_workspace_tail W
      { s with
        workspaces := fupd s.workspaces s.current_workspace (liveWS s),
        head := (s.workspaces j).head,
        prev_foc := (s.workspaces j).prev_foc,
        current := (s.workspaces j).current,
        layout := (s.workspaces j).layout,
        current_workspace := j,
        prev_workspace := s.current_workspace }
      j rfl hjW hj
  exact ⟨t, htm, htcw, htws, hthead, htlay, htfix, htempty⟩

/-- C2 (amended).  Switching away from the active workspace `i` to `j` and
back always restores `i`'s client list head and layout; the focus pair
(`current`, `prev_foc`) is also restored provided the saved focus state is
already a fixed point of `update_focused_client`'s resolution — the list is
empty with both references null, or `current` is set and differs from
`prev_foc` (otherwise the final `update_focused_client(current)` rewrites
`prev_foc`, see the counterexample) — and neither visit crashes (the
destination must not have a null `current` beside a set `prev_foc` on a
non-empty list, nor a zero tiled-client count under a stack layout). -/
theorem spec_c2_roundtrip_amended (W : Nat) (s : WMState) (i j : Nat)
    (hact : s.current_workspace = i) (hiW : i < W) (hjW : j < W) (hij : i ≠ j)
    (hfix : (s.head = [] ∧ s.current = none ∧ s.prev_foc = none) ∨
            (s.head ≠ [] ∧ s.current ≠ none ∧ s.current ≠ s.prev_foc ∧
              stack_safe s.layout s.head))
    (hj : (s.workspaces j).head = [] ∨
          ((s.workspaces j).head ≠ [] ∧
            ¬((s.workspaces j).current = none ∧
              (s.workspaces j).prev_foc ≠ none) ∧
            stack_safe (s.workspaces j).layout (s.workspaces j).head)) :
    ∃ t u, change_workspace W s (j : Int) = some t ∧
      change_workspace W t (i : Int) = some u ∧
      u.head = s.head ∧ u.current = s.current ∧
      u.prev_foc = s.prev_foc ∧ u.layout = s.layout := by
  obtain ⟨t, ht, htcw, htws, _, _, _, _⟩ :=
    change_workspace_go W s j (by rw [hact]; exact hiW) hjW
      (by rw [hact]; exact Ne.symm hij) hj
  have hti : t.workspaces i = liveWS s := by
    rw [htws i hij, hact, fupd_same]
  have hj2 : (t.workspaces i).head = [] ∨
      ((t.workspaces i).head ≠ [] ∧
        ¬((t.workspaces i).current = none ∧
          (t.workspaces i).prev_foc ≠ none) ∧
        stack_safe (t.workspaces i).layout (t.workspaces i).head) := by
    rw [hti]
    rcases hfix with ⟨h1, h2, h3⟩ | ⟨h1, h2, h3, h4⟩
    · exact Or.inl h1
    · refine Or.inr ⟨h1, ?_, h4⟩
      intro hc
      exact h2 hc.1
  obtain ⟨u, hu, hucw, huws, huhead, hulay, hufix, huempty⟩ :=
    change_workspace_go W t i (by rw [htcw]; exact hjW) hiW
      (by rw [htcw]; exact hij) hj2
  refine ⟨t, u, ht, hu, ?_, ?_, ?_, ?_⟩
  · rw [huhead, hti]
    rfl
  · rcases hfix with ⟨h1, h2, h3⟩ | ⟨h1, h2, h3, h4⟩
    · obtain ⟨hc, _⟩ := huempty (by rw [hti]; exact h1)
      rw [hc, h2]
    · obtain ⟨hc, _⟩ := hufix (by rw [hti]; exact ⟨h1, h2, h3⟩)
      rw [hc, hti]
      rfl
  · rcases hfix with ⟨h1, h2, h3⟩ | ⟨h1, h2, h3, h4⟩
    · obtain ⟨_, hp⟩ := huempty (by rw [hti]; exact h1)
      rw [hp, h3]
    · obtain ⟨_, hp⟩ := hufix (by rw [hti]; exact ⟨h1, h2, h3⟩)
      rw [hp, hti]
      rfl
  · rw [hulay, hti]
    rfl

theorem spec_c2_roundtrip_amended_witness :
    ∃ t u, change_workspace 2 c2w_s ((1 : Nat) : Int) = some t ∧
      change_workspace 2 t ((0 : Nat) : Int) = some u ∧
      u.head = c2w_s.head ∧ u.current = c2w_s.current ∧
      u.prev_foc = c2w_s.prev_foc ∧ u.layout = c2w_s.layout :=
  spec_c2_roundtrip_amended 2 c2w_s 0 1 rfl (by decide) (by decide) (by decide)
    (Or.inr ⟨by decide, by decide, by decide, by decide⟩) (Or.inl rfl)

theorem chain_frame {nf nf' : Nat → Option Nat} :
    ∀ {o : Option Nat} {l : List Nat}, Chain nf o l →
      (∀ p ∈ l, nf' p = nf p) → Chain nf' o l := by
  intro o l hc
  induction hc with
  | nil => intro _; exact Chain.nil
  | cons h ih =>
    intro hframe
    refine Chain.cons ?_
    rw [hframe _ (by simp)]
    exact ih fun p hp => hframe p (by simp [hp])

theorem chain_none_nil {nf : Nat → Option Nat} {l : List Nat}
    (h : Chain nf none l) : l = [] := by
  cases h
  rfl

theorem chain_some_cons {nf : Nat → Option Nat} {h0 : Nat} {l : List Nat}
    (h : Chain nf (some h0) l) :
    ∃ ps, l = h0 :: ps ∧ Chain nf (nf h0) ps := by
  cases h with
  | cons htail => exact ⟨_, rfl, htail⟩

theorem nodup_bounded_length_le {l : List Nat} {n : Nat} (hnd : l.Nodup)
    (hb : ∀ p ∈ l, p < n) : l.length ≤ n := by
  have h1 : l.toFinset.card = l.length := by
    rw [List.card_toFinset, hnd.dedup]
  have h2 : l.toFinset ⊆ Finset.range n := by
    intro x hx
    exact Finset.mem_range.2 (hb x (List.mem_toFinset.1 hx))
  calc l.length = l.toFinset.card := h1.symm
    _ ≤ (Finset.range n).card := Finset.card_le_card h2
    _ = n := Finset.card_range n

theorem hprev_walk_last {nf : Nat → Option Nat} {cid : Nat} :
    ∀ (l : List Nat) (p : Nat) (fuel : Nat), Chain nf (some p) (p :: l) →
      cid ∉ l → l.length ≤ fuel →
      hprev_walk nf fuel p cid = (p :: l).getLast (List.cons_ne_nil p l) := by
  intro l
  induction l with
  | nil =>
    intro p fuel hc _ _
    obtain ⟨ps, hps, htail⟩ := chain_some_cons hc
    have hnil : ps = [] := by
      cases hps
      rfl
    rw [hnil] at htail
    cases fuel with
    | zero => rfl
    | succ f =>
      unfold hprev_walk
      cases hq : nf p with
      | none => rfl
      | some q =>
        rw [hq] at htail
        cases htail
  | cons q qs ih =>
    intro p fuel hc hmem hfuel
    obtain ⟨ps, hps, htail⟩ := chain_some_cons hc
    have hps' : ps = q :: qs := by
      cases hps
      rfl
    rw [hps'] at htail
    have hnfp : nf p = some q := by
      cases hq : nf p with
      | none =>
        rw [hq] at htail
        exact absurd (chain_none_nil htail) (by simp)
      | some r =>
        rw [hq] at htail
        obtain ⟨ps2, hps2, _⟩ := chain_some_cons htail
        cases hps2
        rfl
    cases fuel with
    | zero => exact absurd hfuel (by simp)
    | succ f =>
      unfold hprev_walk
      rw [hnfp]
      show (if q = cid then p else hprev_walk nf f q cid) = _
      rw [if_neg (show ¬q = cid from fun hc2 => hmem (by simp [hc2]))]
      rw [ih q f (by rw [← hnfp]; exact htail)
        (fun hc2 => hmem (by simp [hc2])) (by simpa using hfuel)]
      rw [List.getLast_cons (List.cons_ne_nil q qs)]

theorem chain_extend {nf : Nat → Option Nat} {c : Nat} (hc0 : nf c = none) :
    ∀ (l : List Nat) (p : Nat), Chain nf (some p) (p :: l) →
      (p :: l).Nodup → c ∉ p :: l →
      Chain (fupd nf ((p :: l).getLast (List.cons_ne_nil p l)) (some c))
        (some p) ((p :: l) ++ [c]) := by
  intro l
  induction l with
  | nil =>
    intro p hc hnd hcm
    rw [show [p].getLast (List.cons_ne_nil p []) = p from rfl]
    refine Chain.cons ?_
    rw [fupd_same nf p (some c)]
    refine Chain.cons ?_
    rw [fupd_other _ _ _ _ (show c ≠ p by intro h; exact hcm (by simp [h])), hc0]
    exact Chain.nil
  | cons q qs ih =>
    intro p hc hnd hcm
    obtain ⟨ps, hps, htail⟩ := chain_some_cons hc
    have hps' : ps = q :: qs := by
      cases hps
      rfl
    rw [hps'] at htail
    have hnfp : nf p = some q := by
      cases hq : nf p with
      | none =>
        rw [hq] at htail
        exact absurd (chain_none_nil htail) (by simp)
      | some r =>
        rw [hq] at htail
        obtain ⟨ps2, hps2, _⟩ := chain_some_cons htail
        cases hps2
        rfl
    have hlast : ((p :: q :: qs).getLast (List.cons_ne_nil p (q :: qs))) =
        ((q :: qs).getLast (List.cons_ne_nil q qs)) :=
      List.getLast_cons (List.cons_ne_nil q qs)
    have hpne : p ≠ (q :: qs).getLast (List.cons_ne_nil q qs) := by
      intro h
      have : p ∈ q :: qs := by
        rw [h]
        exact List.getLast_mem (List.cons_ne_nil q qs)
      exact (List.nodup_cons.1 hnd).1 this
    refine Chain.cons ?_
    rw [hlast, fupd_other _ _ _ _ hpne, hnfp]
    have := ih q (by rw [← hnfp]; exact htail) (List.nodup_cons.1 hnd).2
      (fun h => hcm (by simp at h ⊢; exact Or.inr h))
    exact this

theorem chain_nil_none {nf : Nat → Option Nat} {o : Option Nat}
    (h : Chain nf o []) : o = none := by
  cases h
  rfl

theorem hprev_client_mk (nf : Nat → Option Nat) (hd : Option Nat)
    (cnt h0 : Nat) (hh : hd = some h0) :
    hprev_client ⟨nf, hd, cnt⟩ (some h0) =
      match nf h0 with
      | none => none
      | some _ => some (hprev_walk nf cnt h0 h0) := by
  subst hh
  rfl

theorem hremove_walk_sound {nf : Nat → Option Nat} {cid : Nat} :
    ∀ (l : List Nat) (h : Nat) (fuel : Nat) (p : Nat),
      Chain nf (some h) (h :: l) → (h :: l).Nodup → l.length < fuel →
      hremove_walk nf fuel h cid = some p →
      p ∈ h :: l ∧ ∃ l', Chain (fupd nf p (nf cid)) (some h) l' ∧
        l'.Nodup ∧ ∀ q ∈ l', q ∈ h :: l := by
  intro l
  induction l with
  | nil =>
    intro h fuel p hc _ hfl hwalk
    obtain ⟨ps, hps, htail⟩ := chain_some_cons hc
    have hps0 : ps = [] := by
      cases hps
      rfl
    rw [hps0] at htail
    have hnf : nf h = none := chain_nil_none htail
    cases fuel with
    | zero => cases hwalk
    | succ f =>
      unfold hremove_walk at hwalk
      rw [hnf] at hwalk
      cases hwalk
  | cons q qs ih =>
    intro h fuel p hc hnd hfl hwalk
    obtain ⟨ps, hps, htail⟩ := chain_some_cons hc
    have hps' : ps = q :: qs := by
      cases hps
      rfl
    rw [hps'] at htail
    have hnfh : nf h = some q := by
      cases hq : nf h with
      | none =>
        rw [hq] at htail
        exact absurd (chain_none_nil htail) (by simp)
      | some r =>
        rw [hq] at htail
        obtain ⟨ps2, hps2, _⟩ := chain_some_cons htail
        cases hps2
        rfl
    have htail2 : Chain nf (some q) (q :: qs) := by
      rw [← hnfh]
      exact htail
    cases fuel with
    | zero => exact absurd hfl (by simp)
    | succ f =>
      unfold hremove_walk at hwalk
      rw [hnfh] at hwalk
      have hwalk2 : (if q = cid then some h else hremove_walk nf f q cid) =
          some p := hwalk
      by_cases hq : q = cid
      · rw [if_pos hq] at hwalk2
        have hp : p = h := by
          cases hwalk2
          rfl
        subst hp
        subst hq
        obtain ⟨ps3, hps3, htail3⟩ := chain_some_cons htail2
        have hps3' : ps3 = qs := by
          cases hps3
          rfl
        rw [hps3'] at htail3
        have hpmem : p ∉ q :: qs := (List.nodup_cons.1 hnd).1
        refine ⟨by simp, p :: qs, Chain.cons ?_, ?_, ?_⟩
        · rw [fupd_same]
          refine chain_frame htail3 ?_
          intro x hx
          exact fupd_other _ _ _ _ fun he =>
            hpmem (by rw [← he]; simp [hx])
        · exact List.nodup_cons.2
            ⟨fun hx => hpmem (by simp [hx]), (List.nodup_cons.1 (List.nodup_cons.1 hnd).2).2⟩
        · intro x hx
          rcases List.mem_cons.1 hx with hx | hx
          · simp [hx]
          · simp [hx]
      · rw [if_neg hq] at hwalk2
        obtain ⟨hpmem, l2, hch2, hnd2, hsub2⟩ := ih q f p htail2
          (List.nodup_cons.1 hnd).2 (by simpa using hfl) hwalk2
        have hhmem : h ∉ q :: qs := (List.nodup_cons.1 hnd).1
        have hhp : h ≠ p := fun he => hhmem (he ▸ hpmem)
        refine ⟨by simp [List.mem_cons.2 (Or.inr hpmem)], h :: l2,
          Chain.cons ?_, ?_, ?_⟩
        · rw [fupd_other _ _ _ _ hhp, hnfh]
          exact hch2
        · exact List.nodup_cons.2
            ⟨fun hx => hhmem (hsub2 h hx), hnd2⟩
        · intro x hx
          rcases List.mem_cons.1 hx with hx | hx
          · simp [hx]
          · exact List.mem_cons.2 (Or.inr (hsub2 x hx))

theorem client_from_window_h_inv (s : HState) (hinv : HInv s) :
    HInv (client_from_window_h s) := by
  obtain ⟨nf, hd, cnt⟩ := s
  obtain ⟨l, hch, hnd, hb⟩ := hinv
  have hch2 : Chain nf hd l := hch
  have hb2 : ∀ p ∈ l, p < cnt := hb
  have hfresh : cnt ∉ l := fun hm => absurd (hb2 _ hm) (by omega)
  have hframe0 : Chain (fupd nf cnt none) hd l :=
    chain_frame hch2 fun p hp =>
      fupd_other _ _ _ _ fun he => hfresh (he ▸ hp)
  cases hd with
  | none =>
    show HInv { nextf := fupd nf cnt none, head := some cnt, cnt := cnt + 1 }
    refine ⟨[cnt], Chain.cons ?_, by simp, by simp⟩
    show Chain (fupd nf cnt none) (fupd nf cnt none cnt) []
    rw [fupd_same]
    exact Chain.nil
  | some h0 =>
    obtain ⟨ps, hps, htail⟩ := chain_some_cons hframe0
    subst hps
    have hh0 : h0 < cnt := hb2 h0 (by simp)
    have hlen : (h0 :: ps).length ≤ cnt := nodup_bounded_length_le hnd hb2
    cases hnf : fupd nf cnt none h0 with
    | none =>
      have heq : client_from_window_h ⟨nf, some h0, cnt⟩ =
          { nextf := fupd (fupd nf cnt none) h0 (some cnt),
            head := some h0, cnt := cnt + 1 } := by
        show (match hprev_client ⟨fupd nf cnt none, some h0, cnt⟩ (some h0) with
          | some t => ({ nextf := fupd (fupd nf cnt none) t (some cnt),
                         head := some h0, cnt := cnt + 1 } : HState)
          | none => { nextf := fupd (fupd nf cnt none) h0 (some cnt),
                      head := some h0, cnt := cnt + 1 }) = _
        rw [hprev_client_mk (fupd nf cnt none) (some h0) cnt h0 rfl, hnf]
      rw [heq]
      have hps0 : ps = [] := by
        rw [hnf] at htail
        exact chain_none_nil htail
      subst hps0
      refine ⟨[h0, cnt], Chain.cons ?_, by simp; omega, by simp; omega⟩
      show Chain (fupd (fupd nf cnt none) h0 (some cnt))
        (fupd (fupd nf cnt none) h0 (some cnt) h0) [cnt]
      rw [fupd_same]
      refine Chain.cons ?_
      show Chain (fupd (fupd nf cnt none) h0 (some cnt))
        (fupd (fupd nf cnt none) h0 (some cnt) cnt) []
      rw [fupd_other _ _ _ _ (show cnt ≠ h0 by omega), fupd_same]
      exact Chain.nil
    | some w =>
      have hpsne : ps ≠ [] := by
        intro h
        rw [h] at htail
        rw [chain_nil_none htail] at hnf
        cases hnf
      have hwalk : hprev_walk (fupd nf cnt none) cnt h0 h0 =
          (h0 :: ps).getLast (List.cons_ne_nil h0 ps) :=
        hprev_walk_last ps h0 cnt (Chain.cons htail)
          (List.nodup_cons.1 hnd).1 (by simp at hlen; omega)
      have heq : client_from_window_h ⟨nf, some h0, cnt⟩ =
          { nextf := fupd (fupd nf cnt none)
              ((h0 :: ps).getLast (List.cons_ne_nil h0 ps)) (some cnt),
            head := some h0, cnt := cnt + 1 } := by
        show (match hprev_client ⟨fupd nf cnt none, some h0, cnt⟩ (some h0) with
          | some t => ({ nextf := fupd (fupd nf cnt none) t (some cnt),
                         head := some h0, cnt := cnt + 1 } : HState)
          | none => { nextf := fupd (fupd nf cnt none) h0 (some cnt),
                      head := some h0, cnt := cnt + 1 }) = _
        rw [hprev_client_mk (fupd nf cnt none) (some h0) cnt h0 rfl, hnf,
          hwalk]
      rw [heq]
      refine ⟨(h0 :: ps) ++ [cnt], ?_, ?_, ?_⟩
      · show Chain (fupd (fupd nf cnt none)
            ((h0 :: ps).getLast (List.cons_ne_nil h0 ps)) (some cnt))
          (some h0) ((h0 :: ps) ++ [cnt])
        exact chain_extend (fupd_same _ _ _) ps h0 (Chain.cons htail) hnd hfresh
      · refine List.nodup_append.2 ⟨hnd, by simp, ?_⟩
        intro a ha
        simp only [List.mem_singleton]
        intro he
        exact hfresh (he ▸ ha)
      · show ∀ p ∈ (h0 :: ps) ++ [cnt], p < cnt + 1
        intro p hp
        rcases List.mem_append.1 hp with hp | hp
        · exact Nat.lt_succ_of_lt (hb2 p hp)
        · simp at hp
          omega

theorem remove_client_h_inv (s : HState) (cid : Nat) (hinv : HInv s) :
    HInvOpt (remove_client_h s cid) := by
  obtain ⟨l, hch, hnd, hb⟩ := hinv
  unfold remove_client_h
  cases hh : s.head with
  | none => exact trivial
  | some h0 =>
    rw [hh] at hch
    obtain ⟨ps, hps, htail⟩ := chain_some_cons hch
    subst hps
    show HInvOpt (if h0 = cid then
        some { nextf := s.nextf,
               head := if s.nextf cid = some cid then none else s.nextf cid,
               cnt := s.cnt }
      else
        match hremove_walk s.nextf s.cnt h0 cid with
        | none => none
        | some p =>
          some { nextf := fupd s.nextf p (s.nextf cid), head := some h0,
                 cnt := s.cnt })
    by_cases hc : h0 = cid
    · rw [if_pos hc]
      by_cases hh2 : s.nextf cid = some cid
      · rw [if_pos hh2]
        exact ⟨[], Chain.nil, List.nodup_nil, by simp⟩
      · rw [if_neg hh2]
        refine ⟨ps, ?_, (List.nodup_cons.1 hnd).2,
          fun p hp => hb p (by simp [hp])⟩
        show Chain s.nextf (s.nextf cid) ps
        rw [← hc]
        exact htail
    · rw [if_neg hc]
      cases hwalk : hremove_walk s.nextf s.cnt h0 cid with
      | none => exact trivial
      | some p =>
        have hlen : (h0 :: ps).length ≤ s.cnt := nodup_bounded_length_le hnd hb
        obtain ⟨_, l2, hch2, hnd2, hsub2⟩ := hremove_walk_sound ps h0 s.cnt p
          hch hnd (by simp at hlen; omega) hwalk
        exact ⟨l2, hch2, hnd2, fun q hq => hb q (hsub2 q hq)⟩

theorem hstep_inv (s : HState) (op : HOp) (hinv : HInv s) :
    HInvOpt (hstep s op) := by
  cases op with
  | create => exact client_from_window_h_inv s hinv
  | destroy cid => exact remove_client_h_inv s cid hinv

theorem hrun_inv : ∀ (ops : List HOp) (s : HState), HInv s →
    HInvOpt (hrun s ops) := by
  intro ops
  induction ops with
  | nil =>
    intro s h
    exact h
  | cons op ops ih =>
    intro s h
    unfold hrun
    cases hst : hstep s op with
    | none => exact trivial
    | some s2 =>
      have h2 := hstep_inv s op h
      rw [hst] at h2
      exact ih s2 h2

/-- C1.  Along every sequence of client creations (`client_from_window`,
which appends a freshly allocated client whose `next` is null) and client
destructions (`remove_client`'s pointer unlink) starting from the empty
state, the Client Store's list is acyclic and the terminal `next` link is
null: the surviving state always admits a duplicate-free `Chain` from the
head pointer to null.  Creations and destructions only touch the active
workspace's list, so every other workspace's list stays empty (trivially
acyclic) along such a sequence; a destruction that dereferences a null
`temp` (undefined behaviour) terminates the process and leaves no state. -/
theorem spec_c1_client_list_acyclic (ops : List HOp) :
    HInvOpt (hrun hinit ops) :=
  hrun_inv ops hinit ⟨[], Chain.nil, List.nodup_nil, by simp⟩

/-- Sanity check that runs do survive: creating two clients and destroying
the first succeeds (the invariant theorem is not vacuous on successful
runs). -/
theorem hrun_create_destroy_isSome :
    (hrun hinit [HOp.create, HOp.create, HOp.destroy 0]).isSome = true := rfl
